import Mathlib

/-!
Verification development for the reactive-ltl planner core.

The definitions below are shallow embeddings of the Python sources:
  * `src/planning/ltlrrg.py`   — `RRGPlanner` (global off-line RRG planner),
  * `src/planning/localrrt.py` — `monitor`, `get_actual_potential`,
    `LocalPlanner.check_local_plan`, `LocalPlanner.local_plan_hit`,
    `LocalPlanner.min_potential_global_state`,
  * `src/spaces/maps2d.py`     — `BoxBoundary2D`, `BallBoundary2D`.

Real-valued quantities are embedded as rationals; collaborator objects that
the planner only calls through an interface (the robot, the incremental
product-automaton checker) are parameters of the embedding, collected in the
`Env` structure.  Fallible Python code (assertions, attribute errors) is
embedded with `Except`.
-/

namespace ReactiveLTL

/-- Embedding of the Python `min(xs, key=key)` call on a non-empty sequence `best :: rest`:
scans left to right and replaces the current best only on a strictly
smaller key, so the first minimiser is kept. -/
def minByAux {α β : Type} [LinearOrder β] (key : α → β) : α → List α → α
  | best, [] => best
  | best, x :: xs => if key x < key best then minByAux key x xs else minByAux key best xs

theorem minByAux_mem {α β : Type} [LinearOrder β] (key : α → β) (a : α) (l : List α) :
    minByAux key a l ∈ a :: l := by
  induction l generalizing a with
  | nil => simp [minByAux]
  | cons x xs ih =>
    simp only [minByAux]
    split
    · have h := ih x
      simp only [List.mem_cons] at h ⊢
      tauto
    · have h := ih a
      simp only [List.mem_cons] at h ⊢
      tauto

theorem minByAux_key_eq {α β : Type} [LinearOrder β] (key : α → β) (a : α) (l : List α) :
    key (minByAux key a l) = (l.map key).foldl min (key a) := by
  induction l generalizing a with
  | nil => simp [minByAux]
  | cons x xs ih =>
    simp only [minByAux, List.map_cons, List.foldl_cons]
    split
    · rename_i hlt
      rw [ih x, min_eq_right (le_of_lt hlt)]
    · rename_i hge
      rw [ih a, min_eq_left (le_of_not_lt hge)]

theorem foldl_min_le_init {β : Type} [LinearOrder β] :
    ∀ (l : List β) (b : β), l.foldl min b ≤ b := by
  intro l
  induction l with
  | nil => intro b; simp
  | cons x xs ih =>
    intro b
    calc (x :: xs).foldl min b = xs.foldl min (min b x) := by simp
    _ ≤ min b x := ih (min b x)
    _ ≤ b := min_le_left b x

theorem foldl_min_le_mem {β : Type} [LinearOrder β] :
    ∀ (l : List β) (b y : β), y ∈ l → l.foldl min b ≤ y := by
  intro l
  induction l with
  | nil => intro b y hy; simp at hy
  | cons x xs ih =>
    intro b y hy
    rcases List.mem_cons.mp hy with h | h
    · subst h
      calc (y :: xs).foldl min b = xs.foldl min (min b y) := by simp
      _ ≤ min b y := foldl_min_le_init xs (min b y)
      _ ≤ y := min_le_right b y
    · exact ih (min b x) y h

theorem minByAux_le {α β : Type} [LinearOrder β] (key : α → β) (a : α) (l : List α) :
    ∀ y ∈ a :: l, key (minByAux key a l) ≤ key y := by
  intro y hy
  rw [minByAux_key_eq key a l]
  rcases List.mem_cons.mp hy with h | h
  · subst h
    exact foldl_min_le_init (l.map key) (key y)
  · exact foldl_min_le_mem (l.map key) (key a) (key y) (List.mem_map_of_mem key h)

/-! ### Global RRG planner (src/planning/ltlrrg.py) -/

/-- Interface of the collaborators used by `RRGPlanner`: the robot
(configuration-space metric, steering, simple-segment test) and the
incremental product-automaton checker.  `check c u v fwd` stands for
`checker.check(ts, u, v, getSymbols(v), forward=fwd)` — the proposition
argument is a function of the destination configuration `v`, so it is
folded into the oracle.  `steerB` is `robot.steer` with `atol=1e-8` as
used by the backward phase. -/
structure Env (V C E : Type) where
  dist : V → V → ℚ
  etaLo : ℚ
  etaHi : ℚ
  steer : V → V → V
  steerB : V → V → V
  simple : V → V → Bool
  found : C → Bool
  check : C → V → V → Bool → List E
  update : C → List E → C

/-- State of the planner: the transition-system vertex list and edge
list (`self.ts.g`) and the checker state (`self.checker`). -/
structure RRGState (V C : Type) where
  nodes : List V
  edges : List (V × V)
  checker : C

/-- Embedding of `RRGPlanner.far`: all states at distance `< eta[1]` from `p`, unless one
of them is at distance `≤ eta[0]`, in which case the empty list is
returned. -/
def far {V : Type} (dist : V → V → ℚ) (etaLo etaHi : ℚ) (nodes : List V) (p : V) :
    List V :=
  let filtered := nodes.filter (fun v => decide (dist v p < etaHi))
  if filtered.any (fun v => decide (dist v p ≤ etaLo)) then [] else filtered

/-- Embedding of `RRGPlanner.near`: all states at distance `0 < d < eta[1]` from `p`. -/
def near {V : Type} (dist : V → V → ℚ) (etaHi : ℚ) (nodes : List V) (p : V) :
    List V :=
  nodes.filter (fun v => decide (0 < dist v p) && decide (dist v p < etaHi))

/-- Embedding of `RRGPlanner.nearest`: the node of the transition system minimising
`dist p ·` (Python `min` keeps the first minimiser).  The transition system
always contains the initial configuration, so the `none` case never arises
in the source. -/
def nearest {V : Type} (dist : V → V → ℚ) (nodes : List V) (p : V) : Option V :=
  match nodes with
  | [] => none
  | x :: xs => some (minByAux (fun v => dist p v) x xs)

/-- Body of `RRGPlanner.iterate` (the branch taken when the checker has not
yet found a policy): forward extension (sample was already drawn; here it is
the argument `randomConf`), then backward extension.  Staged sets `Q`,
`Delta`, `E` are committed in source order: forward states and transitions
and the forward checker update happen before the backward phase scans
`near` on the updated vertex list. -/
def iterateBody {V C E : Type} [DecidableEq V] (env : Env V C E) (randomConf : V)
    (s : RRGState V C) : RRGState V C :=
  match nearest env.dist s.nodes randomConf with
  | none => s
  | some nearState =>
    let newConf := env.steer nearState randomConf
    let farList := far env.dist env.etaLo env.etaHi s.nodes newConf
    let simpleList := farList.filter (fun st => env.simple st newConf)
    let accepted := simpleList.filter
      (fun st => !(env.check s.checker st newConf true).isEmpty)
    let eFwd := simpleList.flatMap (fun st => env.check s.checker st newConf true)
    let nodes1 :=
      if accepted.isEmpty || decide (newConf ∈ s.nodes) then s.nodes
      else newConf :: s.nodes
    let delta1 := accepted.map (fun st => (st, newConf))
    let checker1 := env.update s.checker eFwd
    let newStates : List V := if accepted.isEmpty then [] else [newConf]
    let backCand := fun ns => (near env.dist env.etaHi nodes1 ns).filter
      (fun st => decide (env.steerB ns st = st) && env.simple ns st)
    let delta2 := newStates.flatMap (fun ns =>
      ((backCand ns).filter (fun st => !(env.check checker1 ns st false).isEmpty)).map
        (fun st => (ns, st)))
    let eBwd := newStates.flatMap (fun ns =>
      (backCand ns).flatMap (fun st => env.check checker1 ns st false))
    { nodes := nodes1
      edges := s.edges ++ delta1 ++ delta2
      checker := env.update checker1 eBwd }

/-- Embedding of `RRGPlanner.iterate`: if the checker already reports a policy, return
`True` without touching any state; otherwise run the forward and backward
phases and return `checker.foundPolicy()`. -/
def iterateR {V C E : Type} [DecidableEq V] (env : Env V C E) (randomConf : V)
    (s : RRGState V C) : RRGState V C × Bool :=
  if env.found s.checker then (s, true)
  else
    let s2 := iterateBody env randomConf s
    (s2, env.found s2.checker)

/-- C7: once the checker reports `found_policy`, a further call to
`RRGPlanner.iterate` returns `True` and leaves the whole planner state — the
transition-system vertices and edges and the product-automaton checker —
unchanged. -/
theorem iterate_frozen_after_policy {V C E : Type} [DecidableEq V] (env : Env V C E)
    (randomConf : V) (s : RRGState V C) (h : env.found s.checker = true) :
    iterateR env randomConf s = (s, true) := by
  simp [iterateR, h]

/-- One step of `iterate` reports success exactly when the checker of the
state it returns reports `found_policy`: either the guard was already true
(state unchanged), or the body ran and its result is
`checker.foundPolicy()`. -/
theorem iterateR_flag {V C E : Type} [DecidableEq V] (env : Env V C E) (randomConf : V)
    (s : RRGState V C) :
    (iterateR env randomConf s).2 = env.found (iterateR env randomConf s).1.checker := by
  by_cases h : env.found s.checker = true
  · simp [iterateR, h]
  · simp [iterateR, h]

/-- Embedding of `RRGPlanner.solve`, with the iteration counter made explicit:
`solveAux env samples start n s` runs `for self.iteration in
range(start, start + n)`, returning the final planner state, the Boolean
result, and the number of calls to `iterate` actually executed.
`samples i` is the configuration drawn by `robot.sample()` in iteration
`i`. -/
def solveAux {V C E : Type} [DecidableEq V] (env : Env V C E) (samples : ℕ → V) :
    ℕ → ℕ → RRGState V C → RRGState V C × Bool × ℕ
  | _start, 0, s => (s, false, 0)
  | start, n + 1, s =>
    let p := iterateR env (samples start) s
    if p.2 then (p.1, true, 1)
    else
      let q := solveAux env samples (start + 1) n p.1
      (q.1, q.2.1, q.2.2 + 1)

/-- Embedding of `RRGPlanner.solve`: `for self.iteration in range(1, maxIterations+1):
if self.iterate(): return True` and `return False` after the loop. -/
def solve {V C E : Type} [DecidableEq V] (env : Env V C E) (samples : ℕ → V)
    (maxIterations : ℕ) (s : RRGState V C) : RRGState V C × Bool × ℕ :=
  solveAux env samples 1 maxIterations s

/-- The planner state after `k` completed iterations, when iteration
counters run from `start`. -/
def stateAt {V C E : Type} [DecidableEq V] (env : Env V C E) (samples : ℕ → V) :
    ℕ → ℕ → RRGState V C → RRGState V C
  | _start, 0, s => s
  | start, k + 1, s =>
    stateAt env samples (start + 1) k (iterateR env (samples start) s).1

/-- The Boolean returned by iteration number `start + k` (counting from 0):
the value of `iterate` at the k-th iteration boundary. -/
def flagAt {V C E : Type} [DecidableEq V] (env : Env V C E) (samples : ℕ → V)
    (start k : ℕ) (s : RRGState V C) : Bool :=
  (iterateR env (samples (start + k)) (stateAt env samples start k s)).2

theorem flagAt_succ {V C E : Type} [DecidableEq V] (env : Env V C E) (samples : ℕ → V)
    (start k : ℕ) (s : RRGState V C) :
    flagAt env samples start (k + 1) s =
      flagAt env samples (start + 1) k (iterateR env (samples start) s).1 := by
  simp only [flagAt, stateAt]
  have : start + (k + 1) = (start + 1) + k := by omega
  rw [this]

theorem solveAux_spec {V C E : Type} [DecidableEq V] (env : Env V C E)
    (samples : ℕ → V) (n start : ℕ) (s : RRGState V C) :
    (solveAux env samples start n s).2.2 ≤ n ∧
      ((solveAux env samples start n s).2.1 = true →
        1 ≤ (solveAux env samples start n s).2.2 ∧
          env.found (solveAux env samples start n s).1.checker = true ∧
          flagAt env samples start ((solveAux env samples start n s).2.2 - 1) s = true ∧
          ∀ k < (solveAux env samples start n s).2.2 - 1,
            flagAt env samples start k s = false) ∧
      ((solveAux env samples start n s).2.1 = false →
        (solveAux env samples start n s).2.2 = n ∧
          ∀ k < n, flagAt env samples start k s = false) := by
  induction n generalizing start s with
  | zero =>
    refine ⟨le_refl 0, ?_, ?_⟩
    · intro h
      simp [solveAux] at h
    · intro _
      exact ⟨rfl, fun k hk => absurd hk (Nat.not_lt_zero k)⟩
  | succ n ih =>
    cases hp : (iterateR env (samples start) s).2 with
    | true =>
      have hred : solveAux env samples start (n + 1) s =
          ((iterateR env (samples start) s).1, true, 1) := by
        simp [solveAux, hp]
      rw [hred]
      refine ⟨Nat.succ_le_succ (Nat.zero_le n), ?_, ?_⟩
      · intro _
        refine ⟨le_refl 1, ?_, ?_, ?_⟩
        · rw [← iterateR_flag]
          exact hp
        · show flagAt env samples start 0 s = true
          simp only [flagAt, stateAt, Nat.add_zero]
          exact hp
        · intro k hk
          simp at hk
      · intro h
        simp at h
    | false =>
      have hred : solveAux env samples start (n + 1) s =
          ((solveAux env samples (start + 1) n (iterateR env (samples start) s).1).1,
           (solveAux env samples (start + 1) n (iterateR env (samples start) s).1).2.1,
           (solveAux env samples (start + 1) n (iterateR env (samples start) s).1).2.2 + 1) := by
        simp [solveAux, hp]
      have hflag0 : flagAt env samples start 0 s = false := by
        simp only [flagAt, stateAt, Nat.add_zero]
        exact hp
      obtain ⟨ih1, ih2, ih3⟩ := ih (start + 1) (iterateR env (samples start) s).1
      rw [hred]
      refine ⟨Nat.succ_le_succ ih1, ?_, ?_⟩
      · intro h
        obtain ⟨hc1, hfound, hflag, hall⟩ := ih2 h
        refine ⟨Nat.le_succ_of_le hc1, hfound, ?_, ?_⟩
        · show flagAt env samples start
            ((solveAux env samples (start + 1) n (iterateR env (samples start) s).1).2.2 + 1 - 1)
            s = true
          have hc : (solveAux env samples (start + 1) n (iterateR env (samples start) s).1).2.2
              + 1 - 1 =
              ((solveAux env samples (start + 1) n (iterateR env (samples start) s).1).2.2
                - 1) + 1 := by omega
          rw [hc, flagAt_succ]
          exact hflag
        · intro k hk
          have hk2 : k <
              (solveAux env samples (start + 1) n (iterateR env (samples start) s).1).2.2
                + 1 - 1 := hk
          match k with
          | 0 => exact hflag0
          | j + 1 =>
            rw [flagAt_succ]
            exact hall j (by omega)
      · intro h
        obtain ⟨hc, hall⟩ := ih3 h
        refine ⟨show (solveAux env samples (start + 1) n
            (iterateR env (samples start) s).1).2.2 + 1 = n + 1 by omega, ?_⟩
        intro k hk
        match k with
        | 0 => exact hflag0
        | j + 1 =>
          rw [flagAt_succ]
          exact hall j (by omega)

/-- C4: `RRGPlanner.solve` executes at most `maxIterations` calls to
`iterate`; it returns `True` exactly when the checker reports
`found_policy` at an iteration boundary, and it does so at the first such
boundary (all earlier iterations returned `False`); otherwise it returns
`False` after exactly `maxIterations` iterations.  The embedding is a total
function, so failure is a returned value, not an exception. -/
theorem solve_bounded_and_reports_found {V C E : Type} [DecidableEq V]
    (env : Env V C E) (samples : ℕ → V) (maxIterations : ℕ) (s : RRGState V C) :
    (solve env samples maxIterations s).2.2 ≤ maxIterations ∧
      ((solve env samples maxIterations s).2.1 = true →
        1 ≤ (solve env samples maxIterations s).2.2 ∧
          env.found (solve env samples maxIterations s).1.checker = true ∧
          flagAt env samples 1 ((solve env samples maxIterations s).2.2 - 1) s = true ∧
          ∀ k < (solve env samples maxIterations s).2.2 - 1,
            flagAt env samples 1 k s = false) ∧
      ((solve env samples maxIterations s).2.1 = false →
        (solve env samples maxIterations s).2.2 = maxIterations ∧
          ∀ k < maxIterations, flagAt env samples 1 k s = false) :=
  solveAux_spec env samples maxIterations 1 s

theorem solve_bounded_and_reports_found_witness :
    (solve envW (fun _ => 1) 5 ⟨[0], [], true⟩).2.2 ≤ 5 ∧
      ((solve envW (fun _ => 1) 5 ⟨[0], [], true⟩).2.1 = true →
        1 ≤ (solve envW (fun _ => 1) 5 ⟨[0], [], true⟩).2.2 ∧
          envW.found (solve envW (fun _ => 1) 5 ⟨[0], [], true⟩).1.checker = true ∧
          flagAt envW (fun _ => 1) 1 ((solve envW (fun _ => 1) 5 ⟨[0], [], true⟩).2.2 - 1)
            ⟨[0], [], true⟩ = true ∧
          ∀ k < (solve envW (fun _ => 1) 5 ⟨[0], [], true⟩).2.2 - 1,
            flagAt envW (fun _ => 1) 1 k ⟨[0], [], true⟩ = false) ∧
      ((solve envW (fun _ => 1) 5 ⟨[0], [], true⟩).2.1 = false →
        (solve envW (fun _ => 1) 5 ⟨[0], [], true⟩).2.2 = 5 ∧
          ∀ k < 5, flagAt envW (fun _ => 1) 1 k ⟨[0], [], true⟩ = false) :=
  solve_bounded_and_reports_found envW (fun _ => 1) 5 ⟨[0], [], true⟩

/-- If `far` returns a non-empty list for `p`, then every transition-system
vertex is strictly farther than `etaLo` from `p`: a vertex within `etaHi`
would otherwise have triggered the empty-list rejection, and a vertex at
distance `≥ etaHi` is farther than `etaLo` whenever `etaLo < etaHi`. -/
theorem far_spacing {V : Type} (dist : V → V → ℚ) (etaLo etaHi : ℚ)
    (hlt : etaLo < etaHi) (nodes : List V) (p : V)
    (hne : far dist etaLo etaHi nodes p ≠ []) :
    ∀ b ∈ nodes, etaLo < dist b p := by
  intro b hb
  simp only [far] at hne
  split at hne
  · exact absurd rfl hne
  · rename_i hany
    simp only [List.any_eq_true, decide_eq_true_eq, not_exists, not_and] at hany
    by_cases hclose : dist b p < etaHi
    · have hbmem : b ∈ nodes.filter (fun v => decide (dist v p < etaHi)) :=
        List.mem_filter.mpr ⟨hb, by simpa using hclose⟩
      exact lt_of_not_le (hany b hbmem)
    · exact lt_of_lt_of_le hlt (le_of_not_lt hclose)

/-- The vertex set after one `iterate` body either is unchanged, or has
gained exactly the steered configuration, which was not present before and
for which `far` returned a non-empty list. -/
theorem iterateBody_nodes {V C E : Type} [DecidableEq V] (env : Env V C E)
    (randomConf : V) (s : RRGState V C) :
    (iterateBody env randomConf s).nodes = s.nodes ∨
      ∃ newConf, (iterateBody env randomConf s).nodes = newConf :: s.nodes ∧
        newConf ∉ s.nodes ∧
        far env.dist env.etaLo env.etaHi s.nodes newConf ≠ [] := by
  cases hn : nearest env.dist s.nodes randomConf with
  | none => left; simp [iterateBody, hn]
  | some nearState =>
    simp only [iterateBody, hn]
    split
    · left; rfl
    · rename_i hcond
      right
      refine ⟨env.steer nearState randomConf, rfl, ?_, ?_⟩
      · intro hmem
        exact hcond (by simp [hmem])
      · intro hfar
        exact hcond (by simp [hfar])

/-- C1: every completed `RRGPlanner.iterate` preserves dispersion.  If before
the iteration all distinct transition-system vertices are at distance at
least `etaLo` from each other (with a symmetric metric and `etaLo < etaHi`),
then the same holds after: the forward extension adds the steered
configuration only when `far` returned a non-empty list, which certifies
that no existing vertex lies at distance `≤ etaLo` from it, and the backward
phase adds no vertex. -/
theorem iterate_preserves_dispersion {V C E : Type} [DecidableEq V] (env : Env V C E)
    (hsym : ∀ u v : V, env.dist u v = env.dist v u)
    (hlt : env.etaLo < env.etaHi)
    (randomConf : V) (s : RRGState V C)
    (hdisp : ∀ u ∈ s.nodes, ∀ v ∈ s.nodes, u ≠ v → env.etaLo ≤ env.dist u v) :
    ∀ u ∈ (iterateR env randomConf s).1.nodes,
      ∀ v ∈ (iterateR env randomConf s).1.nodes,
        u ≠ v → env.etaLo ≤ env.dist u v := by
  by_cases hf : env.found s.checker = true
  · simpa [iterateR, hf] using hdisp
  · have hout : (iterateR env randomConf s).1 = iterateBody env randomConf s := by
      simp [iterateR, hf]
    rw [hout]
    rcases iterateBody_nodes env randomConf s with h | ⟨newConf, hcons, hnotmem, hfar⟩
    · rw [h]; exact hdisp
    · rw [hcons]
      have hspace := far_spacing env.dist env.etaLo env.etaHi hlt s.nodes newConf hfar
      intro u hu v hv huv
      rcases List.mem_cons.mp hu with h1 | hu
      · rcases List.mem_cons.mp hv with h2 | hv
        · rw [h1, h2] at huv
          exact absurd rfl huv
        · rw [h1, hsym newConf v]
          exact le_of_lt (hspace v hv)
      · rcases List.mem_cons.mp hv with h2 | hv
        · rw [h2]
          exact le_of_lt (hspace u hu)
        · exact hdisp u hu v hv huv

/-- Concrete instantiation data for witnesses over the RRG model. -/
def envW : Env ℕ Bool Unit where
  dist := fun u v => if u = v then 0 else 3
  etaLo := 2
  etaHi := 4
  steer := fun _ target => target
  steerB := fun _ target => target
  simple := fun _ _ => true
  found := fun c => c
  check := fun _ _ _ _ => [()]
  update := fun c _ => c

theorem iterate_preserves_dispersion_witness :
    envW.etaLo < envW.etaHi ∧
      (1 : ℕ) ∈ (iterateR envW 1 ⟨[0], [], false⟩).1.nodes ∧
      (0 : ℕ) ∈ (iterateR envW 1 ⟨[0], [], false⟩).1.nodes ∧
      (2 : ℚ) ≤ envW.dist 1 0 :=
  ⟨by decide, by decide, by decide,
    iterate_preserves_dispersion envW
      (by
        intro u v
        show (if u = v then (0 : ℚ) else 3) = if v = u then (0 : ℚ) else 3
        by_cases h : u = v
        · subst h; rfl
        · rw [if_neg h, if_neg (Ne.symm h)])
      (by decide) 1 ⟨[0], [], false⟩ (by decide) 1 (by decide) 0 (by decide) (by decide)⟩

theorem iterate_frozen_after_policy_witness :
    envW.found true = true ∧
      iterateR envW 1 ⟨[0], [], true⟩ = (⟨[0], [], true⟩, true) :=
  ⟨rfl, iterate_frozen_after_policy envW 1 ⟨[0], [], true⟩ rfl⟩

/-! ### Local planner and half-monitor (src/planning/localrrt.py) -/

/-- Half-monitor `monitor(start, buchi, start_prop, stop_prop)` for violation
of the LTL specification: if the propositions agree, return `set(start)`;
otherwise accumulate `buchi.next_states(q, stop_prop)` over `q ∈ start`.
`start` is the iterated collection of Büchi states and `next q σ` stands for
`buchi.next_states(q, σ)`. -/
def monitor {Q A : Type} [DecidableEq Q] [DecidableEq A] (start : List Q)
    (next : Q → A → List Q) (start_prop stop_prop : A) : Finset Q :=
  if start_prop = stop_prop then start.toFinset
  else start.foldl (fun stop q => stop ∪ (next q stop_prop).toFinset) ∅

theorem monitor_foldl_eq {Q A : Type} [DecidableEq Q] [DecidableEq A]
    (next : Q → A → List Q) (p : A) :
    ∀ (l : List Q) (acc : Finset Q),
      l.foldl (fun stop q => stop ∪ (next q p).toFinset) acc =
        acc ∪ l.toFinset.biUnion (fun q => (next q p).toFinset) := by
  intro l
  induction l with
  | nil => intro acc; simp
  | cons x xs ih =>
    intro acc
    simp only [List.foldl_cons, ih, List.toFinset_cons, Finset.biUnion_insert]
    ext q
    simp only [Finset.mem_union, Finset.mem_biUnion]
    tauto

/-- C3: the half-monitor returns the start set unchanged when the previous
and next propositions coincide, and otherwise the union over the start set
of the Büchi successor sets under the next proposition; an empty union is
the value that marks the segment as violating. -/
theorem monitor_spec {Q A : Type} [DecidableEq Q] [DecidableEq A] (start : List Q)
    (next : Q → A → List Q) (start_prop stop_prop : A) :
    monitor start next start_prop stop_prop =
      if start_prop = stop_prop then start.toFinset
      else start.toFinset.biUnion (fun q => (next q stop_prop).toFinset) := by
  by_cases h : start_prop = stop_prop
  · simp [monitor, h]
  · simp only [monitor, if_neg h, monitor_foldl_eq]
    exact Finset.empty_union _

/-- C10: for fixed automaton and distinct propositions, the half-monitor is
a union homomorphism in its start set, and it maps the empty start set to
the empty set — so it is monotone and an empty Büchi set stays empty. -/
theorem monitor_union_hom {Q A : Type} [DecidableEq Q] [DecidableEq A]
    (l1 l2 : List Q) (next : Q → A → List Q) (start_prop stop_prop : A)
    (h : start_prop ≠ stop_prop) :
    monitor (l1 ++ l2) next start_prop stop_prop =
        monitor l1 next start_prop stop_prop ∪ monitor l2 next start_prop stop_prop ∧
      monitor ([] : List Q) next start_prop stop_prop = ∅ := by
  constructor
  · simp only [monitor, if_neg h, monitor_foldl_eq, Finset.empty_union, List.toFinset_append]
    ext q
    simp only [Finset.mem_biUnion, Finset.mem_union]
    constructor
    · rintro ⟨a, ha | ha, hq⟩
      · exact Or.inl ⟨a, ha, hq⟩
      · exact Or.inr ⟨a, ha, hq⟩
    · rintro (⟨a, ha, hq⟩ | ⟨a, ha, hq⟩)
      · exact ⟨a, Or.inl ha, hq⟩
      · exact ⟨a, Or.inr ha, hq⟩
  · simp [monitor, if_neg h]

theorem monitor_union_hom_witness :
    ((0 : ℕ) ≠ 1) ∧
      (monitor ([0] ++ [1]) (fun q _ => [q + 1]) 0 1 =
          monitor [0] (fun q _ => [q + 1]) 0 1 ∪ monitor [1] (fun q _ => [q + 1]) 0 1 ∧
        monitor ([] : List ℕ) (fun q _ => [q + 1]) 0 1 = ∅) :=
  ⟨by decide, monitor_union_hom [0] [1] (fun q _ => [q + 1]) 0 1 (by decide)⟩

/-- Embedding of `get_actual_potential(x, B, pa)`: the list of product states
built from the intersection of proj and B; infinity if it is empty, and
otherwise the potential of a minimum-potential entry.  `proj x` stands for
the field `proj_ts` of the product and `pot x q` for the stored potential
(a non-negative integer or infinity, embedded as `WithTop ℕ`). -/
def get_actual_potential {V Q : Type} [DecidableEq Q] (proj : V → List Q)
    (pot : V → Q → WithTop ℕ) (x : V) (B : List Q) : WithTop ℕ :=
  match (proj x).filter (fun q => decide (q ∈ B)) with
  | [] => ⊤
  | q :: qs => pot x (minByAux (fun b => pot x b) q qs)

theorem foldl_min_eq_inf {α β : Type} [DecidableEq α] [LinearOrder β] [OrderTop β]
    (f : α → β) :
    ∀ (l : List α) (b : β), (l.map f).foldl min b = b ⊓ l.toFinset.inf f := by
  intro l
  induction l with
  | nil => intro b; simp
  | cons x xs ih =>
    intro b
    simp only [List.map_cons, List.foldl_cons, ih, List.toFinset_cons, Finset.inf_insert]
    rw [inf_eq_min, inf_eq_min, inf_eq_min, min_assoc]

/-- C9: `get_actual_potential` equals the infimum of the stored potentials
over exactly the Büchi states in `pa.proj_ts[x] ∩ B` (the infimum of the
empty set being `⊤`); in particular it returns infinity when the product
automaton has no vertex `(x, q)` with `q ∈ B`, and it is a total function —
no exception is raised in either case. -/
theorem get_actual_potential_spec {V Q : Type} [DecidableEq Q] (proj : V → List Q)
    (pot : V → Q → WithTop ℕ) (x : V) (B : List Q) :
    get_actual_potential proj pot x B =
        ((proj x).filter (fun q => decide (q ∈ B))).toFinset.inf (pot x) ∧
      ((∀ q ∈ proj x, q ∉ B) → get_actual_potential proj pot x B = ⊤) := by
  constructor
  · cases hf : (proj x).filter (fun q => decide (q ∈ B)) with
    | nil => simp [get_actual_potential, hf]
    | cons q qs =>
      simp only [get_actual_potential, hf]
      rw [minByAux_key_eq (fun b => pot x b) q qs, foldl_min_eq_inf (pot x) qs (pot x q),
        List.toFinset_cons, Finset.inf_insert, inf_eq_min]
  · intro hdisj
    have hf : (proj x).filter (fun q => decide (q ∈ B)) = [] :=
      List.filter_eq_nil_iff.mpr (fun q hq => by simpa using hdisj q hq)
    simp [get_actual_potential, hf]

theorem get_actual_potential_spec_witness :
    (get_actual_potential (fun _ : ℕ => [0, 1]) (fun _ q => if q = 0 then 2 else ⊤) 0 [5] =
        ((([0, 1] : List ℕ).filter (fun q => decide (q ∈ [5]))).toFinset.inf
          (fun q => if q = 0 then (2 : WithTop ℕ) else ⊤))) ∧
      get_actual_potential (fun _ : ℕ => [0, 1]) (fun _ q => if q = 0 then 2 else ⊤) 0 [5] = ⊤ :=
  ⟨(get_actual_potential_spec (fun _ : ℕ => [0, 1])
      (fun _ q => if q = 0 then 2 else ⊤) 0 [5]).1,
    (get_actual_potential_spec (fun _ : ℕ => [0, 1])
      (fun _ q => if q = 0 then 2 else ⊤) 0 [5]).2 (by decide)⟩

/-- Embedding of the namedtuple `Request` with fields region, name, priority;
the region is abstracted to an identifier (it only matters for equality of
requests) and lower numeric priority means higher importance. -/
structure Request where
  region : ℕ
  name : ℕ
  priority : ℤ
deriving DecidableEq

/-- Embedding of `LocalPlanner.local_plan_hit`: `False` if the plan is empty, else `True`
iff some configuration of the plan carries the name of the tracked request among
its local symbols.  `symL conf` stands for
`robot.getSymbols(conf, local=True)`; configurations are abstracted to
identifiers. -/
def local_plan_hit (symL : ℕ → List ℕ) (target : Request) (plan : List ℕ) : Bool :=
  if plan.isEmpty then false
  else plan.any (fun conf => decide (target.name ∈ symL conf))

/-- Embedding of `LocalPlanner.check_local_plan`, as a function of the supplied requests:
returns the Boolean result together with the updated `self.tracking_req`.
With non-empty requests the minimum-priority request replaces the tracked
one only when there is no tracked request or the tracked one has a strictly
larger priority number, and the result is `local_plan_hit`; with empty
requests a present tracked request is reset to `None` (the `if requests:`
branch inside the disappearance case is dead code there) and the result is
`False` for an empty plan and otherwise the collision-freedom of the plan
against the current obstacles (`collision_free plan`). -/
def check_local_plan (symL : ℕ → List ℕ) (collision_free : List ℕ → Bool)
    (tracking : Option Request) (local_plan : List ℕ) (requests : List Request) :
    Bool × Option Request :=
  match requests with
  | r :: rs =>
    let highest_priority_req := minByAux (fun req : Request => req.priority) r rs
    let tracking2 :=
      match tracking with
      | none => highest_priority_req
      | some t => if highest_priority_req.priority < t.priority then highest_priority_req
                  else t
    (local_plan_hit symL tracking2 local_plan, some tracking2)
  | [] =>
    if local_plan.isEmpty then (false, none)
    else (collision_free local_plan, none)

theorem local_plan_hit_iff (symL : ℕ → List ℕ) (target : Request) (plan : List ℕ) :
    local_plan_hit symL target plan = true ↔ ∃ conf ∈ plan, target.name ∈ symL conf := by
  cases plan with
  | nil => simp [local_plan_hit]
  | cons c cs => simp [local_plan_hit]

/-- C6 counterexample: with a tracked request of priority 0 and a single
supplied request of priority 1, `check_local_plan` keeps the stale tracked
request, which is not an element of the supplied requests — refuting the
claim that after a call with non-empty requests `tracking_req` is a
minimal-priority element of the supplied requests. -/
theorem check_local_plan_keeps_stale_target :
    (check_local_plan (fun _ => []) (fun _ => true)
        (some ⟨0, 0, 0⟩) [] [⟨1, 1, 1⟩]).2 = some ⟨0, 0, 0⟩ ∧
      (⟨0, 0, 0⟩ : Request) ∉ [(⟨1, 1, 1⟩ : Request)] := by
  constructor
  · rfl
  · decide

/-- C6 (amended): for non-empty requests, `check_local_plan` selects a
minimal-priority request `high`; the tracked request becomes `high` only if
there was none or the tracked priority number is strictly larger than
that of `high`, and otherwise is kept unchanged (possibly stale); the call
returns true iff the pending plan visits a configuration whose local
proposition contains the name of the updated tracked request.  For empty
requests the tracked request is always cleared, and the result is the
collision check of a non-empty plan (false for an empty one). -/
theorem check_local_plan_spec (symL : ℕ → List ℕ) (collision_free : List ℕ → Bool)
    (tracking : Option Request) (plan : List ℕ) (r : Request) (rs : List Request) :
    (minByAux (fun req : Request => req.priority) r rs ∈ r :: rs ∧
      (∀ q ∈ r :: rs,
        (minByAux (fun req : Request => req.priority) r rs).priority ≤ q.priority) ∧
      (check_local_plan symL collision_free tracking plan (r :: rs)).2 =
        some (match tracking with
          | none => minByAux (fun req : Request => req.priority) r rs
          | some t =>
            if (minByAux (fun req : Request => req.priority) r rs).priority < t.priority then
              minByAux (fun req : Request => req.priority) r rs
            else t) ∧
      ((check_local_plan symL collision_free tracking plan (r :: rs)).1 = true ↔
        ∃ conf ∈ plan,
          (match tracking with
            | none => minByAux (fun req : Request => req.priority) r rs
            | some t =>
              if (minByAux (fun req : Request => req.priority) r rs).priority < t.priority then
                minByAux (fun req : Request => req.priority) r rs
              else t).name ∈ symL conf)) ∧
    (check_local_plan symL collision_free tracking plan []).2 = none := by
  refine ⟨⟨minByAux_mem (fun req : Request => req.priority) r rs,
    minByAux_le (fun req : Request => req.priority) r rs, rfl, ?_⟩, ?_⟩
  · show local_plan_hit symL _ plan = true ↔ _
    exact local_plan_hit_iff symL _ plan
  · simp only [check_local_plan]
    split <;> rfl

theorem check_local_plan_spec_witness :
    (minByAux (fun req : Request => req.priority) (⟨1, 1, 1⟩ : Request) [] ∈
        [(⟨1, 1, 1⟩ : Request)] ∧
      (∀ q ∈ [(⟨1, 1, 1⟩ : Request)],
        (minByAux (fun req : Request => req.priority) (⟨1, 1, 1⟩ : Request) []).priority ≤
          q.priority) ∧
      (check_local_plan (fun _ => [1]) (fun _ => true) none [7] [⟨1, 1, 1⟩]).2 =
        some (minByAux (fun req : Request => req.priority) (⟨1, 1, 1⟩ : Request) []) ∧
      ((check_local_plan (fun _ => [1]) (fun _ => true) none [7] [⟨1, 1, 1⟩]).1 = true ↔
        ∃ conf ∈ [7],
          (minByAux (fun req : Request => req.priority) (⟨1, 1, 1⟩ : Request) []).name ∈
            [1])) ∧
    (check_local_plan (fun _ => [1]) (fun _ => true) none [7] []).2 = none :=
  check_local_plan_spec (fun _ => [1]) (fun _ => true) none [7] ⟨1, 1, 1⟩ []

/-- Embedding of `LocalPlanner.min_potential_global_state(state)`, embedded with its two
Python-2 failure modes made explicit as `Except` errors.  `out_edges v`
stands for `pa.g.out_edges_iter` restricted to the product vertex `v` (the
call site passes the list `[(state, b) for b in buchi_states[-1]]`), `pot`
for the stored vertex potentials, and `curPot` for `self.potential[-1]`.
`zip(*edges)` on an empty edge list raises `TypeError`; on the tie-break
branch (current potential 0 and minimum successor potential 0) the code
calls `.remove` on `pa_next_states`, which `zip` produced as a *tuple*, so
an `AttributeError` is raised instead of removing the zero-potential
successor. -/
def min_potential_global_state {V Q : Type} [DecidableEq V] [DecidableEq Q]
    (out_edges : V × Q → List ((V × Q) × (V × Q))) (pot : V × Q → WithTop ℕ)
    (curPot : WithTop ℕ) (buchiLast : List Q) (state : V) : Except String V :=
  let pa_states := buchiLast.map (fun b => (state, b))
  match (pa_states.flatMap out_edges).map Prod.snd with
  | [] => .error "TypeError: zip of empty edge list"
  | x :: xs =>
    let opt_pa_next_state := minByAux pot x xs
    if curPot = 0 ∧ pot opt_pa_next_state = 0 then
      .error "AttributeError: tuple object has no attribute remove"
    else .ok opt_pa_next_state.1

/-- Concrete product automaton for the C5 failing input: from the current
vertex `(0, 0)` there are successors `(1, 0)` with potential `0` and
`(2, 0)` with potential `1`. -/
def outW : ℕ × ℕ → List ((ℕ × ℕ) × (ℕ × ℕ)) :=
  fun v => if v = (0, 0) then [((0, 0), (1, 0)), ((0, 0), (2, 0))] else []

/-- Stored potentials for the C5 failing input. -/
def potW : ℕ × ℕ → WithTop ℕ :=
  fun v => if v = (1, 0) then 0 else if v = (2, 0) then 1 else ⊤

/-- C5: at a state of potential 0 whose minimum-potential successor also has
potential 0 — exactly the tie-break situation of the claim — the embedded
`min_potential_global_state` reaches the branch that calls `.remove` on the
tuple returned by `zip`, so the call raises `AttributeError` instead of
returning the next-best successor of positive potential (here the vertex
`2` via `(2, 0)`). -/
theorem min_potential_tie_break_crashes :
    min_potential_global_state outW potW 0 [0] 0 =
        .error "AttributeError: tuple object has no attribute remove" ∧
      potW (1, 0) = 0 ∧ potW (2, 0) = 1 := by
  refine ⟨rfl, rfl, rfl⟩

/-! ### 2D geometric primitives (src/spaces/maps2d.py) -/

/-- A 2D axis-aligned box boundary: `self.ranges` as the two coordinate
ranges `[xlow, xhigh]` and `[ylow, yhigh]`. -/
structure BoxBoundary2D where
  xlow : ℚ
  xhigh : ℚ
  ylow : ℚ
  yhigh : ℚ
deriving DecidableEq

/-- Embedding of `BoxBoundary2D.intersects(src, dest)` for `dest` given (the segment
case), embedded over exact rationals: the float test
`abs(diff) < np.finfo(float).eps` becomes `diff = 0`.  For each
non-constant axis the code stores `(low - src)/diff` in `u` and
`(high - src)/diff` in `v` — without swapping them when `diff < 0` — and for
a constant axis it keeps the initial values `u = 0`, `v = 1` after an
in-range test; it finally returns `np.max(u) <= np.min(v)`, with no
intersection against the parameter interval `[0, 1]`. -/
def boxIntersects (b : BoxBoundary2D) (sx sy dx dy : ℚ) : Bool :=
  let diffx := dx - sx
  let diffy := dy - sy
  let uvx : Option (ℚ × ℚ) :=
    if diffx = 0 then
      if b.xlow ≤ sx ∧ sx ≤ b.xhigh then some (0, 1) else none
    else some ((b.xlow - sx) / diffx, (b.xhigh - sx) / diffx)
  let uvy : Option (ℚ × ℚ) :=
    if diffy = 0 then
      if b.ylow ≤ sy ∧ sy ≤ b.yhigh then some (0, 1) else none
    else some ((b.ylow - sy) / diffy, (b.yhigh - sy) / diffy)
  match uvx, uvy with
  | some (ux, vx), some (uy, vy) => decide (max ux uy ≤ min vx vy)
  | _, _ => false

/-- Specification predicate, the geometric truth that the claim and the docstring of the method describe:
some point `src + lam * (dest - src)`, `lam ∈ [0, 1]`, lies in the box. -/
def segMeetsBox (b : BoxBoundary2D) (sx sy dx dy : ℚ) : Prop :=
  ∃ lam : ℚ, 0 ≤ lam ∧ lam ≤ 1 ∧
    b.xlow ≤ sx + lam * (dx - sx) ∧ sx + lam * (dx - sx) ≤ b.xhigh ∧
    b.ylow ≤ sy + lam * (dy - sy) ∧ sy + lam * (dy - sy) ≤ b.yhigh

/-- C2: `BoxBoundary2D.intersects` deviates from the slab-clipping algorithm
of the claim (and of its own docstring).  The segment from `(2, 2)` to
`(3, 3)` does not meet the unit box `[0,1] × [0,1]` — both slab intervals
are `[-2, -1]`, disjoint from `[0, 1]` — yet the code returns `True`
because `max(u) <= min(v)` is evaluated without intersecting with `[0, 1]`. -/
theorem boxIntersects_misses_unit_clamp :
    boxIntersects ⟨0, 1, 0, 1⟩ 2 2 3 3 = true ∧ ¬ segMeetsBox ⟨0, 1, 0, 1⟩ 2 2 3 3 := by
  constructor
  · norm_num [boxIntersects]
  · rintro ⟨lam, h0, _h1, _hx1, hx2, _⟩
    simp only at hx2
    nlinarith

/-- Embedding of `BoxBoundary2D.__init__(ranges)`: the shape assertion is enforced by the
types of the embedding, and the assertion that each range is ordered is the
only validation — equal endpoints (a zero-volume box) pass it. -/
def boxBoundaryInit (xlow xhigh ylow yhigh : ℚ) : Except String BoxBoundary2D :=
  if xlow ≤ xhigh ∧ ylow ≤ yhigh then .ok ⟨xlow, xhigh, ylow, yhigh⟩
  else .error "AssertionError: ranges"

/-- Embedding of `BoxBoundary2D.volume`: `np.prod(self.ranges[:, 0] - self.ranges[:, 1])`. -/
def boxVolume2D (b : BoxBoundary2D) : ℚ :=
  (b.xlow - b.xhigh) * (b.ylow - b.yhigh)

/-- Embedding of `BallBoundary2D.__init__(center, radius)`: the dimension check is
enforced by the types of the embedding, and the radius assertion rejects
non-positive radii. -/
def ballBoundaryInit (cx cy radius : ℚ) : Except String (ℚ × ℚ × ℚ) :=
  if 0 < radius then .ok (cx, cy, radius) else .error "AssertionError: radius"

/-- Helper returning `true` on `ok` and `false` on `error`. -/
def exceptOk {α : Type} : Except String α → Bool
  | .ok _ => true
  | .error _ => false

/-- C8 counterexample: the degenerate box with ranges `[[0, 0], [0, 1]]` has
volume 0, yet its construction succeeds — refuting the claim that
constructing a zero-volume box fails. -/
theorem boxInit_accepts_degenerate_box :
    boxBoundaryInit 0 0 0 1 = .ok ⟨0, 0, 0, 1⟩ ∧ boxVolume2D ⟨0, 0, 0, 1⟩ = 0 := by
  constructor
  · rfl
  · norm_num [boxVolume2D]

/-- C8 (amended): ball construction fails exactly for `radius ≤ 0`; box
construction fails exactly when a coordinate range is inverted
(`low > high`) — so zero-volume boxes with `low = high` on an axis are
accepted, not rejected. -/
theorem region_construction_spec (xl xh yl yh cx cy radius : ℚ) :
    (exceptOk (ballBoundaryInit cx cy radius) = true ↔ 0 < radius) ∧
      (exceptOk (boxBoundaryInit xl xh yl yh) = true ↔ xl ≤ xh ∧ yl ≤ yh) := by
  constructor
  · simp only [ballBoundaryInit]
    split
    · rename_i h
      simpa [exceptOk] using h
    · rename_i h
      simpa [exceptOk] using h
  · simp only [boxBoundaryInit]
    split
    · rename_i h
      simpa [exceptOk] using h
    · rename_i h
      simpa [exceptOk] using h

theorem region_construction_spec_witness :
    (exceptOk (ballBoundaryInit 0 0 1) = true ↔ (0 : ℚ) < 1) ∧
      (exceptOk (boxBoundaryInit 0 2 0 3) = true ↔ (0 : ℚ) ≤ 2 ∧ (0 : ℚ) ≤ 3) :=
  region_construction_spec 0 2 0 3 0 0 1

end ReactiveLTL
